import Mathlib

/-!
Verification development for the region geometry engine of the
pdf-photo-carousel repository.

The embedding below translates the drawing-canvas component (draw,
drag, resize, snap) and the editor save reconciliation into pure Lean
functions.  JavaScript numbers are modelled as rationals, so all
arithmetic identities hold exactly; tolerance claims stated with a
floating-point epsilon are proved with the same bound.
-/

namespace PdfCarousel

/-- Region record as held in component state and persisted rows:
fields id, x, y, width, height, page_number, order_index. -/
structure Region where
  id : String
  x : ℚ
  y : ℚ
  width : ℚ
  height : ℚ
  page_number : Int
  order_index : Int
deriving DecidableEq, Repr

/-- Props and state of the DrawingCanvas component that the geometry
functions close over: the rendered page size, the authoring width
(originalPdfWidth, default 794) and the snap toggle. -/
structure CanvasEnv where
  pdfWidth : ℚ
  pdfHeight : ℚ
  originalPdfWidth : ℚ := 794
  snapEnabled : Bool := true
deriving DecidableEq, Repr

/-- Scale factor converting display coordinates to stored (authoring)
coordinates: originalPdfWidth / pdfWidth. -/
def displayToStored (env : CanvasEnv) : ℚ :=
  env.originalPdfWidth / env.pdfWidth

/-- Scale factor converting stored (authoring) coordinates to display
coordinates: pdfWidth / originalPdfWidth. -/
def storedToDisplay (env : CanvasEnv) : ℚ :=
  env.pdfWidth / env.originalPdfWidth

/-- Snap threshold constant SNAP_THRESHOLD = 10 display pixels. -/
def SNAP_THRESHOLD : ℚ := 10

/-- Loop body of applySnap: return the first target closer than
SNAP_THRESHOLD to the value, else the value itself. -/
def snapLoop (value : ℚ) : List ℚ → ℚ
  | [] => value
  | t :: ts => if |value - t| < SNAP_THRESHOLD then t else snapLoop value ts

/-- applySnap from the canvas component: identity when snapping is
disabled, otherwise the first target within the threshold. -/
def applySnap (env : CanvasEnv) (value : ℚ) (targets : List ℚ) : ℚ :=
  if env.snapEnabled then snapLoop value targets else value

/-- Result record of getSnapTargets: edge targets for x and y, and
dimension targets for width and height. -/
structure SnapTargets where
  x : List ℚ
  y : List ℚ
  width : List ℚ
  height : List ℚ
deriving DecidableEq, Repr

/-- getSnapTargets from the canvas component: page edges first, then
for every region other than excludeId its x and x+width edges (resp.
y and y+height), and its width and height as dimension targets. -/
def getSnapTargets (env : CanvasEnv) (regions : List Region)
    (excludeId : Option String) : SnapTargets :=
  let others := regions.filter (fun r => some r.id ≠ excludeId)
  { x := [0, env.pdfWidth] ++ others.flatMap (fun r => [r.x, r.x + r.width])
    y := [0, env.pdfHeight] ++ others.flatMap (fun r => [r.y, r.y + r.height])
    width := others.map (·.width)
    height := others.map (·.height) }

/-- Candidate rectangle state (tempRegion) while a draw gesture is in
progress. -/
structure TempRegion where
  x : ℚ
  y : ℚ
  width : ℚ
  height : ℚ
deriving DecidableEq, Repr

/-- Start point of a draw gesture (currentRegion state). -/
structure StartPoint where
  startX : ℚ
  startY : ℚ
deriving DecidableEq, Repr

/-- handleMouseMove of the draw gesture: the candidate rectangle is
the axis-aligned bounding box of the start point and the current
pointer position. -/
def handleMouseMove (start : StartPoint) (currentX currentY : ℚ) : TempRegion :=
  { x := min start.startX currentX
    y := min start.startY currentY
    width := |currentX - start.startX|
    height := |currentY - start.startY| }

/-- handleMouseUp of the draw gesture: when both a start point and a
candidate rectangle exist, snap each edge and each dimension, fall
back to the unsnapped dimension when the snapped dimension is zero
(the JavaScript or-else on a falsy number), convert to stored
coordinates and append the new region; otherwise leave the region
list unchanged. -/
def handleMouseUp (env : CanvasEnv) (regions : List Region)
    (currentRegion : Option StartPoint) (tempRegion : Option TempRegion)
    (newId : String) : List Region :=
  match tempRegion, currentRegion with
  | some t, some _ =>
    let targets := getSnapTargets env regions none
    let snappedX := applySnap env t.x targets.x
    let snappedY := applySnap env t.y targets.y
    let snappedWidth := applySnap env t.width targets.width
    let snappedHeight := applySnap env t.height targets.height
    let newRegion : Region :=
      { id := newId
        x := snappedX * displayToStored env
        y := snappedY * displayToStored env
        width := (if snappedWidth = 0 then t.width else snappedWidth) *
          displayToStored env
        height := (if snappedHeight = 0 then t.height else snappedHeight) *
          displayToStored env
        page_number := 1
        order_index := (regions.length : Int) }
    regions ++ [newRegion]
  | _, _ => regions

/-- The eight resize handles. -/
inductive ResizeHandle where
  | nw | n | ne | e | se | s | sw | w
deriving DecidableEq, Repr

/-- Resize gesture state captured by handleResizeStart: the active
handle, the id of the resized region, the pointer start position in
client coordinates and a copy of the original region. -/
structure ResizeState where
  handle : ResizeHandle
  regionId : String
  startX : ℚ
  startY : ℚ
  originalRegion : Region
deriving DecidableEq, Repr

/-- Switch block of handleResize: apply the stored-space delta to
exactly the fields implied by the handle, starting from the captured
original region. -/
def resizeDelta (orig : Region) (handle : ResizeHandle)
    (deltaX deltaY : ℚ) : Region :=
  match handle with
  | .nw =>
    { orig with
      x := orig.x + deltaX
      y := orig.y + deltaY
      width := orig.width - deltaX
      height := orig.height - deltaY }
  | .n =>
    { orig with
      y := orig.y + deltaY
      height := orig.height - deltaY }
  | .ne =>
    { orig with
      y := orig.y + deltaY
      width := orig.width + deltaX
      height := orig.height - deltaY }
  | .e =>
    { orig with width := orig.width + deltaX }
  | .se =>
    { orig with
      width := orig.width + deltaX
      height := orig.height + deltaY }
  | .s =>
    { orig with height := orig.height + deltaY }
  | .sw =>
    { orig with
      x := orig.x + deltaX
      width := orig.width - deltaX
      height := orig.height + deltaY }
  | .w =>
    { orig with
      x := orig.x + deltaX
      width := orig.width - deltaX }

/-- Authoring-space page height used by the clamp code:
originalPdfWidth * (pdfHeight / pdfWidth). -/
def authoringHeight (env : CanvasEnv) : ℚ :=
  env.originalPdfWidth * (env.pdfHeight / env.pdfWidth)

/-- Minimum dimension enforced by the resize clamp: 20 display pixels
converted to stored coordinates. -/
def minDim (env : CanvasEnv) : ℚ := 20 * displayToStored env

/-- Body of the handleResize move handler for the resized region:
compute the total pointer delta since the gesture start, apply it to
the captured original rectangle per the active handle, snap the x, y,
right and bottom edges against the given targets, then clamp to the
minimum size and the page bounds. -/
def resizeResult (env : CanvasEnv) (rh : ResizeState) (targets : SnapTargets)
    (clientX clientY : ℚ) : Region :=
  let deltaX := (clientX - rh.startX) * displayToStored env
  let deltaY := (clientY - rh.startY) * displayToStored env
  let orig := rh.originalRegion
  let r1 := resizeDelta orig rh.handle deltaX deltaY
  let displayX := r1.x * storedToDisplay env
  let displayY := r1.y * storedToDisplay env
  let x2 := max 0 (applySnap env displayX targets.x * displayToStored env)
  let y2 := max 0 (applySnap env displayY targets.y * displayToStored env)
  let rightEdge := (x2 + r1.width) * storedToDisplay env
  let bottomEdge := (y2 + r1.height) * storedToDisplay env
  let snappedRight := applySnap env rightEdge targets.x
  let snappedBottom := applySnap env bottomEdge targets.y
  let w2 := if snappedRight ≠ rightEdge
    then snappedRight * displayToStored env - x2 else r1.width
  let h2 := if snappedBottom ≠ bottomEdge
    then snappedBottom * displayToStored env - y2 else r1.height
  let x3 := min (env.originalPdfWidth - minDim env) x2
  let y3 := min (authoringHeight env - minDim env) y2
  let w3 := max (minDim env) (min (env.originalPdfWidth - x3) w2)
  let h3 := max (minDim env) (min (authoringHeight env - y3) h2)
  { orig with
    x := x3
    y := y3
    width := w3
    height := h3 }

/-- handleResize move handler: gather snap targets from the regions
other than the resized one, recompute the resized rectangle from the
captured original and the total delta, and replace the region with
the matching id. -/
def handleResize (env : CanvasEnv) (regions : List Region)
    (rh : ResizeState) (clientX clientY : ℚ) : List Region :=
  let targets := getSnapTargets env regions (some rh.regionId)
  let newRegion := resizeResult env rh targets clientX clientY
  regions.map (fun r => if r.id = rh.regionId then newRegion else r)

/-- Drag gesture state (dragStart): last pointer position in client
coordinates and the id of the dragged region. -/
structure DragState where
  x : ℚ
  y : ℚ
  regionId : String
deriving DecidableEq, Repr

/-- handleRegionDrag move handler: convert the pointer delta since
the last move to stored coordinates, add it to the current position
of the dragged region, snap in display space, and clamp x into
[0, originalPdfWidth - width] and y into [0, authoringHeight - height]. -/
def handleRegionDrag (env : CanvasEnv) (regions : List Region)
    (ds : DragState) (clientX clientY : ℚ) : List Region :=
  let deltaX := (clientX - ds.x) * displayToStored env
  let deltaY := (clientY - ds.y) * displayToStored env
  let targets := getSnapTargets env regions (some ds.regionId)
  regions.map (fun r =>
    if r.id = ds.regionId then
      let newX := r.x + deltaX
      let newY := r.y + deltaY
      let displayNewX := newX * storedToDisplay env
      let displayNewY := newY * storedToDisplay env
      { r with
        x := max 0 (min (env.originalPdfWidth - r.width)
          (applySnap env displayNewX targets.x * displayToStored env))
        y := max 0 (min (authoringHeight env - r.height)
          (applySnap env displayNewY targets.y * displayToStored env)) }
    else r)

/-- One interactive edit operation: a drag move event or a resize
move event, each carrying its captured gesture state and the pointer
position in client coordinates. -/
inductive EditOp where
  | drag (ds : DragState) (clientX clientY : ℚ)
  | resize (rh : ResizeState) (clientX clientY : ℚ)

/-- Apply one edit operation to the region list. -/
def applyOp (env : CanvasEnv) (regions : List Region) : EditOp → List Region
  | .drag ds cx cy => handleRegionDrag env regions ds cx cy
  | .resize rh cx cy => handleResize env regions rh cx cy

/-- Apply a sequence of edit operations from left to right. -/
def applyOps (env : CanvasEnv) (regions : List Region)
    (ops : List EditOp) : List Region :=
  ops.foldl (applyOp env) regions

/-- Containment of a region rectangle within the authoring-space page
bounds [0, originalPdfWidth] x [0, authoringHeight]. -/
def InsidePage (env : CanvasEnv) (r : Region) : Prop :=
  0 ≤ r.x ∧ 0 ≤ r.y ∧ r.x + r.width ≤ env.originalPdfWidth ∧
    r.y + r.height ≤ authoringHeight env

/-- Minimum-size floor actually enforced by the resize clamp: both
dimensions at least 20 display pixels in authoring units. -/
def MeetsMin (env : CanvasEnv) (r : Region) : Prop :=
  minDim env ≤ r.width ∧ minDim env ≤ r.height

instance (env : CanvasEnv) (r : Region) : Decidable (InsidePage env r) := by
  unfold InsidePage; infer_instance

instance (env : CanvasEnv) (r : Region) : Decidable (MeetsMin env r) := by
  unfold MeetsMin; infer_instance

/-- Draft ids produced by the drawing canvas carry the temp- prefix;
the save reconciliation tests it with startsWith, embedded here as
the character-wise prefix check on the underlying character lists. -/
def isTemp (id : String) : Bool := "temp-".data.isPrefixOf id.data

/-- Membership test of an id in the previously loaded persisted set
(the existingRegionsMap lookup of the save handler). -/
def existingHas (existing : List Region) (id : String) : Bool :=
  existing.any (fun e => e.id = id)

/-- Ids of the current in-memory regions that are not drafts; rows of
the persisted set outside this list are deleted on save. -/
def currentRegionIds (current : List Region) : List String :=
  (current.filter (fun r => !isTemp r.id)).map (·.id)

/-- Current regions with a persisted id known to the loaded set: they
are updated in place on save. -/
def regionsToUpdate (current existing : List Region) : List Region :=
  current.filter (fun r => !isTemp r.id && existingHas existing r.id)

/-- Current regions that are drafts or unknown to the loaded set:
they are inserted on save. -/
def regionsToInsert (current existing : List Region) : List Region :=
  current.filter (fun r => isTemp r.id || !existingHas existing r.id)

/-- Field update performed by the save handler on a persisted row:
x, y, width, height and order_index come from the in-memory region,
id and page_number stay. -/
def updateRow (e c : Region) : Region :=
  { e with
    x := c.x
    y := c.y
    width := c.width
    height := c.height
    order_index := c.order_index }

/-- Sequential per-row updates of the save handler: each update
overwrites every persisted row whose id matches. -/
def applyUpdates (rows : List Region) (updates : List Region) : List Region :=
  updates.foldl
    (fun acc c => acc.map (fun e => if e.id = c.id then updateRow e c else e))
    rows

/-- Rows inserted by the save handler, indexed from position i: the
row for the j-th inserted region gets order_index u + j where u is
the number of updated regions; ids are assigned by the database and
are supplied here as the freshIds list. -/
def insertRowsAux (u : Int) (freshIds : List String) :
    Nat → List Region → List Region
  | _, [] => []
  | i, r :: rs =>
    { id := freshIds.getD i ""
      x := r.x
      y := r.y
      width := r.width
      height := r.height
      page_number := 1
      order_index := u + (i : Int) } :: insertRowsAux u freshIds (i + 1) rs

/-- All rows inserted by the save handler. -/
def insertedRows (current existing : List Region)
    (freshIds : List String) : List Region :=
  insertRowsAux ((regionsToUpdate current existing).length : Int) freshIds 0
    (regionsToInsert current existing)

/-- Ids deleted by the save handler: persisted ids that are no longer
among the current non-draft ids. -/
def deletedIds (current existing : List Region) : List String :=
  (existing.filter (fun e => !(currentRegionIds current).contains e.id)).map
    (·.id)

/-- handleSaveRegions reconciliation, as the resulting persisted set:
refuse to save an empty list, otherwise update matching rows, insert
the drafts and delete the rows whose ids disappeared. -/
def handleSaveRegions (current existing : List Region)
    (freshIds : List String) : List Region :=
  if current.isEmpty then existing
  else
    ((applyUpdates existing (regionsToUpdate current existing)) ++
      insertedRows current existing freshIds).filter
        (fun e => !(deletedIds current existing).contains e.id)

/-! Helper lemmas about the snap loop and snap targets. -/

lemma snapLoop_eq_self (v : ℚ) (ts : List ℚ)
    (h : ∀ t ∈ ts, ¬ |v - t| < SNAP_THRESHOLD) : snapLoop v ts = v := by
  induction ts with
  | nil => rfl
  | cons t ts ih =>
    rw [snapLoop, if_neg (h t (List.mem_cons_self t ts))]
    exact ih fun u hu => h u (List.mem_cons_of_mem t hu)

lemma snapLoop_append_found (v : ℚ) (ts1 : List ℚ) (t : ℚ) (ts2 : List ℚ)
    (h1 : ∀ u ∈ ts1, ¬ |v - u| < SNAP_THRESHOLD)
    (ht : |v - t| < SNAP_THRESHOLD) :
    snapLoop v (ts1 ++ t :: ts2) = t := by
  induction ts1 with
  | nil => rw [List.nil_append, snapLoop, if_pos ht]
  | cons u ts1 ih =>
    rw [List.cons_append, snapLoop, if_neg (h1 u (List.mem_cons_self u ts1))]
    exact ih fun u' hu' => h1 u' (List.mem_cons_of_mem u hu')

lemma filter_none_exclude (regions : List Region) :
    regions.filter (fun r => some r.id ≠ (none : Option String)) = regions :=
  List.filter_eq_self.mpr fun a _ => by simp

/-- C5: applySnap is the identity when snapping is disabled; when
enabled it returns the proposed value if no target is within the
10-pixel threshold, and otherwise the first target in target-list
order within the threshold; and getSnapTargets lists the two page
edges before the x, x+width (resp. y, y+height) edges of every region
other than the excluded one. -/
theorem snap_first_target_spec :
    (∀ (pdfW pdfH w0 v : ℚ) (targets : List ℚ),
      applySnap ⟨pdfW, pdfH, w0, false⟩ v targets = v) ∧
    (∀ (env : CanvasEnv) (v : ℚ) (targets : List ℚ),
      env.snapEnabled = true →
      (∀ t ∈ targets, ¬ |v - t| < SNAP_THRESHOLD) →
      applySnap env v targets = v) ∧
    (∀ (env : CanvasEnv) (v t : ℚ) (ts1 ts2 : List ℚ),
      env.snapEnabled = true →
      (∀ u ∈ ts1, ¬ |v - u| < SNAP_THRESHOLD) →
      |v - t| < SNAP_THRESHOLD →
      applySnap env v (ts1 ++ t :: ts2) = t) ∧
    (∀ (env : CanvasEnv) (regions : List Region) (excludeId : Option String),
      (getSnapTargets env regions excludeId).x =
        [0, env.pdfWidth] ++
          (regions.filter (fun r => some r.id ≠ excludeId)).flatMap
            (fun r => [r.x, r.x + r.width]) ∧
      (getSnapTargets env regions excludeId).y =
        [0, env.pdfHeight] ++
          (regions.filter (fun r => some r.id ≠ excludeId)).flatMap
            (fun r => [r.y, r.y + r.height])) := by
  refine ⟨fun pdfW pdfH w0 v targets => rfl,
    fun env v targets hsnap h => ?_,
    fun env v t ts1 ts2 hsnap h1 ht => ?_,
    fun env regions excludeId => ⟨rfl, rfl⟩⟩
  · rw [applySnap, if_pos hsnap]
    exact snapLoop_eq_self v targets h
  · rw [applySnap, if_pos hsnap]
    exact snapLoop_append_found v ts1 t ts2 h1 ht

/-- Witness for snap_first_target_spec at concrete inputs. -/
theorem snap_first_target_spec_witness :
    applySnap ⟨794, 1123, 794, false⟩ 205 [0, 794, 200] = 205 ∧
    applySnap ⟨794, 1123, 794, true⟩ 205 [0, 794] = 205 ∧
    applySnap ⟨794, 1123, 794, true⟩ 205 ([0, 794] ++ 200 :: [300]) = 200 := by
  refine ⟨snap_first_target_spec.1 794 1123 794 205 [0, 794, 200],
    snap_first_target_spec.2.1 _ 205 [0, 794] rfl ?_,
    snap_first_target_spec.2.2.1 _ 205 200 [0, 794] [300] rfl ?_ ?_⟩
  · intro t ht
    simp only [List.mem_cons, List.not_mem_nil, or_false] at ht
    rcases ht with h | h <;> subst h <;> rw [SNAP_THRESHOLD] <;> norm_num
  · intro t ht
    simp only [List.mem_cons, List.not_mem_nil, or_false] at ht
    rcases ht with h | h <;> subst h <;> rw [SNAP_THRESHOLD] <;> norm_num
  · rw [SNAP_THRESHOLD]; norm_num

/-- C7: the candidate rectangle while drawing is the normalized
axis-aligned bounding box of the start and current points, it is
symmetric under swapping the two points, and the reversed drag from
display (300,250) to (100,100) yields x=100, y=100, width=200,
height=150. -/
theorem draw_bbox_normalized :
    (∀ (s : StartPoint) (cx cy : ℚ),
      handleMouseMove s cx cy =
        { x := min s.startX cx, y := min s.startY cy,
          width := |cx - s.startX|, height := |cy - s.startY| }) ∧
    (∀ (sx sy cx cy : ℚ),
      handleMouseMove { startX := sx, startY := sy } cx cy =
        handleMouseMove { startX := cx, startY := cy } sx sy) ∧
    handleMouseMove { startX := 300, startY := 250 } 100 100 =
      { x := 100, y := 100, width := 200, height := 150 } := by
  refine ⟨fun s cx cy => rfl, fun sx sy cx cy => ?_, ?_⟩
  · simp [handleMouseMove, min_comm, abs_sub_comm]
  · simp only [handleMouseMove, TempRegion.mk.injEq]
    norm_num [abs_of_nonpos]

/-- C8: converting a value from authoring space to display space and
back multiplies it by pdfWidth / 794 and then by 794 / pdfWidth, so
for every positive display width the round trip returns the value to
within 1e-6 (in exact arithmetic the error is zero). -/
theorem coordinate_roundtrip (v wd hd : ℚ) (snap : Bool) (h : 0 < wd) :
    |v * storedToDisplay ⟨wd, hd, 794, snap⟩ *
      displayToStored ⟨wd, hd, 794, snap⟩ - v| ≤ 1 / 1000000 := by
  have hw : wd ≠ 0 := ne_of_gt h
  have hv : v * ((wd : ℚ) / 794) * ((794 : ℚ) / wd) - v = 0 := by
    field_simp
  rw [storedToDisplay, displayToStored]
  simp only [hv, abs_zero]
  norm_num

/-- Witness for coordinate_roundtrip at concrete inputs. -/
theorem coordinate_roundtrip_witness :
    (0 : ℚ) < 397 ∧
    |(50 : ℚ) * storedToDisplay ⟨397, 500, 794, true⟩ *
      displayToStored ⟨397, 500, 794, true⟩ - 50| ≤ 1 / 1000000 :=
  ⟨by norm_num, coordinate_roundtrip 50 397 500 true (by norm_num)⟩

/-- C2 amended: the release event leaves the region list unchanged
exactly when there is no candidate rectangle or no start point (no
move event happened during the gesture); when both exist the release
always appends one region, even when the candidate has zero width and
height. -/
theorem release_commit_characterization :
    (∀ (env : CanvasEnv) (regions : List Region)
      (cr : Option StartPoint) (newId : String),
      handleMouseUp env regions cr none newId = regions) ∧
    (∀ (env : CanvasEnv) (regions : List Region)
      (t : Option TempRegion) (newId : String),
      handleMouseUp env regions none t newId = regions) ∧
    (∀ (env : CanvasEnv) (regions : List Region)
      (s : StartPoint) (t : TempRegion) (newId : String),
      (handleMouseUp env regions (some s) (some t) newId).length =
        regions.length + 1) := by
  refine ⟨fun env regions cr newId => rfl,
    fun env regions t newId => ?_,
    fun env regions s t newId => ?_⟩
  · cases t <;> rfl
  · simp [handleMouseUp]

/-- C2 counterexample: a draw gesture whose move event ends at the
start point produces the zero-area candidate, and the release then
adds a region (of zero width and height) instead of discarding it. -/
theorem zero_area_commit_adds_region :
    handleMouseMove { startX := 100, startY := 100 } 100 100 =
      ({ x := 100, y := 100, width := 0, height := 0 } : TempRegion) ∧
    (handleMouseUp { pdfWidth := 794, pdfHeight := 1123 } []
      (some { startX := 100, startY := 100 })
      (some { x := 100, y := 100, width := 0, height := 0 })
      "temp-1").length = 0 + 1 := by
  constructor
  · simp [handleMouseMove]
  · rfl

/-- C10: on draw commit the width and height snap-target lists are
exactly the widths and heights of the existing regions (no region is
excluded and no page edge is included), and the committed region
uses the snapped dimension unless it is exactly zero, in which case
the unsnapped candidate dimension is used, all before scaling to
stored coordinates. -/
theorem draw_commit_dimension_snap (env : CanvasEnv) (regions : List Region)
    (s : StartPoint) (t : TempRegion) (newId : String) :
    (getSnapTargets env regions none).width = regions.map (·.width) ∧
    (getSnapTargets env regions none).height = regions.map (·.height) ∧
    handleMouseUp env regions (some s) (some t) newId = regions ++
      [{ id := newId
         x := applySnap env t.x (getSnapTargets env regions none).x *
           displayToStored env
         y := applySnap env t.y (getSnapTargets env regions none).y *
           displayToStored env
         width := (if applySnap env t.width (regions.map (·.width)) = 0
           then t.width else applySnap env t.width (regions.map (·.width))) *
           displayToStored env
         height := (if applySnap env t.height (regions.map (·.height)) = 0
           then t.height else applySnap env t.height (regions.map (·.height))) *
           displayToStored env
         page_number := 1
         order_index := (regions.length : Int) }] := by
  have hw : (getSnapTargets env regions none).width = regions.map (·.width) := by
    rw [getSnapTargets]
    simp only
    rw [filter_none_exclude]
  have hh : (getSnapTargets env regions none).height =
      regions.map (·.height) := by
    rw [getSnapTargets]
    simp only
    rw [filter_none_exclude]
  refine ⟨hw, hh, ?_⟩
  rw [handleMouseUp]
  simp only [hw, hh]

/-- C9: a drag move event maps the region list pointwise, leaving
every region with a different id entirely unchanged and changing at
most x and y of the dragged region: its width, height, page_number,
order_index and id are preserved. -/
theorem drag_frame_conditions (env : CanvasEnv) (regions : List Region)
    (ds : DragState) (cx cy : ℚ) :
    (handleRegionDrag env regions ds cx cy).length = regions.length ∧
    ∀ (i : Nat) (h1 : i < regions.length)
      (h2 : i < (handleRegionDrag env regions ds cx cy).length),
      ((regions.get ⟨i, h1⟩).id ≠ ds.regionId →
        (handleRegionDrag env regions ds cx cy).get ⟨i, h2⟩ =
          regions.get ⟨i, h1⟩) ∧
      ((regions.get ⟨i, h1⟩).id = ds.regionId →
        ((handleRegionDrag env regions ds cx cy).get ⟨i, h2⟩).width =
            (regions.get ⟨i, h1⟩).width ∧
          ((handleRegionDrag env regions ds cx cy).get ⟨i, h2⟩).height =
            (regions.get ⟨i, h1⟩).height ∧
          ((handleRegionDrag env regions ds cx cy).get ⟨i, h2⟩).page_number =
            (regions.get ⟨i, h1⟩).page_number ∧
          ((handleRegionDrag env regions ds cx cy).get ⟨i, h2⟩).order_index =
            (regions.get ⟨i, h1⟩).order_index ∧
          ((handleRegionDrag env regions ds cx cy).get ⟨i, h2⟩).id =
            (regions.get ⟨i, h1⟩).id) := by
  constructor
  · rw [handleRegionDrag]
    exact List.length_map regions _
  · intro i h1 h2
    have hget : (handleRegionDrag env regions ds cx cy).get ⟨i, h2⟩ =
        (fun r =>
          if r.id = ds.regionId then
            { r with
              x := max 0 (min (env.originalPdfWidth - r.width)
                (applySnap env ((r.x + (cx - ds.x) * displayToStored env) *
                    storedToDisplay env)
                  (getSnapTargets env regions (some ds.regionId)).x *
                  displayToStored env))
              y := max 0 (min (authoringHeight env - r.height)
                (applySnap env ((r.y + (cy - ds.y) * displayToStored env) *
                    storedToDisplay env)
                  (getSnapTargets env regions (some ds.regionId)).y *
                  displayToStored env)) }
          else r) (regions.get ⟨i, h1⟩) := List.get_map _
    simp only [hget]
    by_cases hid : (regions.get ⟨i, h1⟩).id = ds.regionId
    · refine ⟨fun hne => absurd hid hne, fun _ => ?_⟩
      rw [if_pos hid]
      exact ⟨rfl, rfl, rfl, rfl, rfl⟩
    · exact ⟨fun _ => by rw [if_neg hid], fun heq => absurd heq hid⟩

/-! Concrete fixtures used by witnesses and counterexamples. -/

def envW : CanvasEnv := { pdfWidth := 794, pdfHeight := 1123 }

def rA : Region :=
  { id := "a", x := 10, y := 10, width := 50, height := 50,
    page_number := 1, order_index := 0 }

def rB : Region :=
  { id := "b", x := 200, y := 200, width := 100, height := 80,
    page_number := 1, order_index := 1 }

def dsW : DragState := { x := 0, y := 0, regionId := "b" }

/-- Witness for drag_frame_conditions at concrete inputs. -/
theorem drag_frame_conditions_witness :
    (handleRegionDrag envW [rA, rB] dsW 7 9).get
        ⟨0, by simp [handleRegionDrag]⟩ = rA ∧
    ((handleRegionDrag envW [rA, rB] dsW 7 9).get
        ⟨1, by simp [handleRegionDrag]⟩).width = rB.width := by
  have h := drag_frame_conditions envW [rA, rB] dsW 7 9
  have hlen : (handleRegionDrag envW [rA, rB] dsW 7 9).length = 2 := h.1
  constructor
  · exact (h.2 0 (by norm_num) (by rw [hlen]; norm_num)).1 (by decide)
  · exact ((h.2 1 (by norm_num) (by rw [hlen]; norm_num)).2 (by decide)).1

/-! Helper lemmas for the resize gesture. -/

lemma filter_update_other (regs : List Region) (rid : String) (N : Region)
    (hN : N.id = rid) :
    (regs.map (fun r => if r.id = rid then N else r)).filter
        (fun r => some r.id ≠ (some rid : Option String)) =
      regs.filter (fun r => some r.id ≠ (some rid : Option String)) := by
  induction regs with
  | nil => rfl
  | cons a l ih =>
    rw [List.map_cons, List.filter_cons, List.filter_cons]
    by_cases h : a.id = rid
    · rw [if_pos h, if_neg (by simp [hN]), if_neg (by simp [h])]
      exact ih
    · rw [if_neg h, if_pos (by simp [h]), if_pos (by simp [h])]
      rw [ih]

lemma getSnapTargets_update (env : CanvasEnv) (regs : List Region)
    (rid : String) (N : Region) (hN : N.id = rid) :
    getSnapTargets env (regs.map (fun r => if r.id = rid then N else r))
        (some rid) = getSnapTargets env regs (some rid) := by
  simp only [getSnapTargets]
  rw [filter_update_other regs rid N hN]

lemma handleResize_twice (env : CanvasEnv) (regs : List Region)
    (rh : ResizeState) (a b c d : ℚ)
    (h : rh.originalRegion.id = rh.regionId) :
    handleResize env (handleResize env regs rh a b) rh c d =
      handleResize env regs rh c d := by
  have hid : (resizeResult env rh
      (getSnapTargets env regs (some rh.regionId)) a b).id = rh.regionId := h
  simp only [handleResize]
  rw [getSnapTargets_update env regs rh.regionId _ hid, List.map_map]
  apply List.map_congr_left
  intro r _
  by_cases hrid : r.id = rh.regionId
  · simp [Function.comp, hrid, hid]
  · simp [Function.comp, hrid]

lemma foldl_resize_eq_last (env : CanvasEnv) (rh : ResizeState)
    (h : rh.originalRegion.id = rh.regionId) :
    ∀ (ms : List (ℚ × ℚ)) (m : ℚ × ℚ) (regions : List Region),
      (ms ++ [m]).foldl
          (fun regs p => handleResize env regs rh p.1 p.2) regions =
        handleResize env regions rh m.1 m.2
  | [], m, regions => by simp
  | p :: ms, m, regions => by
    rw [List.cons_append, List.foldl_cons,
      foldl_resize_eq_last env rh h ms m
        (handleResize env regions rh p.1 p.2),
      handleResize_twice env regions rh p.1 p.2 m.1 m.2 h]

/-- C6: every resize move computes its rectangle from the captured
original rectangle and the total delta since the gesture start: each
handle changes exactly its own dimensions (se changes width and
height only, nw changes x, y, width and height, n changes y and
height only, and analogously for the other five), and a whole
sequence of resize moves produces the same region list as applying
only the final move, so the result depends only on the original
rectangle and the final pointer position. -/
theorem resize_handle_effects_and_rebase :
    (∀ (orig : Region) (dx dy : ℚ),
      (resizeDelta orig .se dx dy).x = orig.x ∧
      (resizeDelta orig .se dx dy).y = orig.y ∧
      (resizeDelta orig .se dx dy).width = orig.width + dx ∧
      (resizeDelta orig .se dx dy).height = orig.height + dy) ∧
    (∀ (orig : Region) (dx dy : ℚ),
      (resizeDelta orig .nw dx dy).x = orig.x + dx ∧
      (resizeDelta orig .nw dx dy).y = orig.y + dy ∧
      (resizeDelta orig .nw dx dy).width = orig.width - dx ∧
      (resizeDelta orig .nw dx dy).height = orig.height - dy) ∧
    (∀ (orig : Region) (dx dy : ℚ),
      (resizeDelta orig .n dx dy).x = orig.x ∧
      (resizeDelta orig .n dx dy).y = orig.y + dy ∧
      (resizeDelta orig .n dx dy).width = orig.width ∧
      (resizeDelta orig .n dx dy).height = orig.height - dy) ∧
    (∀ (orig : Region) (dx dy : ℚ),
      (resizeDelta orig .ne dx dy).x = orig.x ∧
      (resizeDelta orig .ne dx dy).y = orig.y + dy ∧
      (resizeDelta orig .ne dx dy).width = orig.width + dx ∧
      (resizeDelta orig .ne dx dy).height = orig.height - dy) ∧
    (∀ (orig : Region) (dx dy : ℚ),
      (resizeDelta orig .e dx dy).x = orig.x ∧
      (resizeDelta orig .e dx dy).y = orig.y ∧
      (resizeDelta orig .e dx dy).width = orig.width + dx ∧
      (resizeDelta orig .e dx dy).height = orig.height) ∧
    (∀ (orig : Region) (dx dy : ℚ),
      (resizeDelta orig .s dx dy).x = orig.x ∧
      (resizeDelta orig .s dx dy).y = orig.y ∧
      (resizeDelta orig .s dx dy).width = orig.width ∧
      (resizeDelta orig .s dx dy).height = orig.height + dy) ∧
    (∀ (orig : Region) (dx dy : ℚ),
      (resizeDelta orig .sw dx dy).x = orig.x + dx ∧
      (resizeDelta orig .sw dx dy).y = orig.y ∧
      (resizeDelta orig .sw dx dy).width = orig.width - dx ∧
      (resizeDelta orig .sw dx dy).height = orig.height + dy) ∧
    (∀ (orig : Region) (dx dy : ℚ),
      (resizeDelta orig .w dx dy).x = orig.x + dx ∧
      (resizeDelta orig .w dx dy).y = orig.y ∧
      (resizeDelta orig .w dx dy).width = orig.width - dx ∧
      (resizeDelta orig .w dx dy).height = orig.height) ∧
    (∀ (env : CanvasEnv) (regions : List Region) (rh : ResizeState)
      (ms : List (ℚ × ℚ)) (m : ℚ × ℚ),
      rh.originalRegion.id = rh.regionId →
      (ms ++ [m]).foldl
          (fun regs p => handleResize env regs rh p.1 p.2) regions =
        handleResize env regions rh m.1 m.2) :=
  ⟨fun orig dx dy => ⟨rfl, rfl, rfl, rfl⟩,
   fun orig dx dy => ⟨rfl, rfl, rfl, rfl⟩,
   fun orig dx dy => ⟨rfl, rfl, rfl, rfl⟩,
   fun orig dx dy => ⟨rfl, rfl, rfl, rfl⟩,
   fun orig dx dy => ⟨rfl, rfl, rfl, rfl⟩,
   fun orig dx dy => ⟨rfl, rfl, rfl, rfl⟩,
   fun orig dx dy => ⟨rfl, rfl, rfl, rfl⟩,
   fun orig dx dy => ⟨rfl, rfl, rfl, rfl⟩,
   fun env regions rh ms m h => foldl_resize_eq_last env rh h ms m regions⟩

def rhW : ResizeState :=
  { handle := .e, regionId := "b", startX := 0, startY := 0,
    originalRegion := rB }

/-- Witness for resize_handle_effects_and_rebase at concrete inputs. -/
theorem resize_handle_effects_and_rebase_witness :
    (resizeDelta rB .se 5 7).width = rB.width + 5 ∧
    rhW.originalRegion.id = rhW.regionId ∧
    (([(5, 0)] ++ [(12, 3)] : List (ℚ × ℚ))).foldl
        (fun regs (p : ℚ × ℚ) => handleResize envW regs rhW p.1 p.2)
        [rA, rB] =
      handleResize envW [rA, rB] rhW 12 3 := by
  refine ⟨(resize_handle_effects_and_rebase.1 rB 5 7).2.2.1, by decide, ?_⟩
  exact resize_handle_effects_and_rebase.2.2.2.2.2.2.2.2 envW [rA, rB] rhW
    [(5, 0)] (12, 3) (by decide)

/-! Helper lemmas for the clamp invariant. -/

lemma clamp_x_nonneg (W m x2 : ℚ) (hm : m ≤ W) (hx2 : 0 ≤ x2) :
    0 ≤ min (W - m) x2 :=
  le_min (by linarith) hx2

lemma clamp_xw_le (W m x2 w2 : ℚ) (hm : m ≤ W) :
    min (W - m) x2 + max m (min (W - min (W - m) x2) w2) ≤ W := by
  have h1 : min (W - m) x2 ≤ W - m := min_le_left _ _
  have h2 : max m (min (W - min (W - m) x2) w2) ≤ W - min (W - m) x2 :=
    max_le (by linarith) (min_le_left _ _)
  linarith

lemma resizeResult_inside (env : CanvasEnv) (rh : ResizeState)
    (t : SnapTargets) (cx cy : ℚ) (hw : minDim env ≤ env.originalPdfWidth)
    (hh : minDim env ≤ authoringHeight env) :
    InsidePage env (resizeResult env rh t cx cy) ∧
      MeetsMin env (resizeResult env rh t cx cy) := by
  refine ⟨⟨?_, ?_, ?_, ?_⟩, ?_, ?_⟩
  · exact clamp_x_nonneg _ _ _ hw (le_max_left 0 _)
  · exact clamp_x_nonneg _ _ _ hh (le_max_left 0 _)
  · exact clamp_xw_le _ _ _ _ hw
  · exact clamp_xw_le _ _ _ _ hh
  · exact le_max_left _ _
  · exact le_max_left _ _

lemma drag_clamp_props (env : CanvasEnv) (r : Region) (sx sy : ℚ)
    (hin : InsidePage env r) (hmin : MeetsMin env r) :
    InsidePage env { r with
        x := max 0 (min (env.originalPdfWidth - r.width) sx)
        y := max 0 (min (authoringHeight env - r.height) sy) } ∧
      MeetsMin env { r with
        x := max 0 (min (env.originalPdfWidth - r.width) sx)
        y := max 0 (min (authoringHeight env - r.height) sy) } := by
  obtain ⟨hx0, hy0, hxw, hyh⟩ := hin
  obtain ⟨hwm, hhm⟩ := hmin
  refine ⟨⟨le_max_left _ _, le_max_left _ _, ?_, ?_⟩, hwm, hhm⟩
  · have h1 : max 0 (min (env.originalPdfWidth - r.width) sx) ≤
        env.originalPdfWidth - r.width :=
      max_le (by linarith) (min_le_left _ _)
    show max 0 (min (env.originalPdfWidth - r.width) sx) + r.width ≤
      env.originalPdfWidth
    linarith
  · have h1 : max 0 (min (authoringHeight env - r.height) sy) ≤
        authoringHeight env - r.height :=
      max_le (by linarith) (min_le_left _ _)
    show max 0 (min (authoringHeight env - r.height) sy) + r.height ≤
      authoringHeight env
    linarith

lemma handleRegionDrag_preserves (env : CanvasEnv) (regions : List Region)
    (ds : DragState) (cx cy : ℚ)
    (hr : ∀ r ∈ regions, InsidePage env r ∧ MeetsMin env r) :
    ∀ r ∈ handleRegionDrag env regions ds cx cy,
      InsidePage env r ∧ MeetsMin env r := by
  intro r' hr'
  simp only [handleRegionDrag, List.mem_map] at hr'
  obtain ⟨r, hrmem, rfl⟩ := hr'
  by_cases hid : r.id = ds.regionId
  · rw [if_pos hid]
    exact drag_clamp_props env r _ _ (hr r hrmem).1 (hr r hrmem).2
  · rw [if_neg hid]
    exact hr r hrmem

lemma handleResize_preserves (env : CanvasEnv) (regions : List Region)
    (rh : ResizeState) (cx cy : ℚ)
    (hw : minDim env ≤ env.originalPdfWidth)
    (hh : minDim env ≤ authoringHeight env)
    (hr : ∀ r ∈ regions, InsidePage env r ∧ MeetsMin env r) :
    ∀ r ∈ handleResize env regions rh cx cy,
      InsidePage env r ∧ MeetsMin env r := by
  intro r' hr'
  simp only [handleResize, List.mem_map] at hr'
  obtain ⟨r, hrmem, rfl⟩ := hr'
  by_cases hid : r.id = rh.regionId
  · rw [if_pos hid]
    exact resizeResult_inside env rh _ cx cy hw hh
  · rw [if_neg hid]
    exact hr r hrmem

/-- C1 amended: the floor enforced by the resize clamp is 20 display
pixels converted to authoring units (20 * originalPdfWidth / pdfWidth),
not 20 authoring units; provided that floor fits inside the page in
both dimensions, any sequence of drag and resize move events starting
from regions that lie inside the page and meet the floor keeps every
region inside [0, originalPdfWidth] x [0, authoringHeight] with both
dimensions at least the floor. -/
theorem drag_resize_bounds_invariant (env : CanvasEnv)
    (hw : minDim env ≤ env.originalPdfWidth)
    (hh : minDim env ≤ authoringHeight env)
    (regions : List Region)
    (hinit : ∀ r ∈ regions, InsidePage env r ∧ MeetsMin env r)
    (ops : List EditOp) :
    ∀ r ∈ applyOps env regions ops, InsidePage env r ∧ MeetsMin env r := by
  induction ops generalizing regions with
  | nil => exact hinit
  | cons op ops ih =>
    rw [applyOps, List.foldl_cons]
    apply ih
    cases op with
    | drag ds cx cy =>
      exact handleRegionDrag_preserves env regions ds cx cy hinit
    | resize rh cx cy =>
      exact handleResize_preserves env regions rh cx cy hw hh hinit

def rC : Region :=
  { id := "c", x := 0, y := 0, width := 20, height := 20,
    page_number := 1, order_index := 0 }

def dsC : DragState := { x := 0, y := 0, regionId := "c" }

/-- Witness for drag_resize_bounds_invariant at concrete inputs. -/
theorem drag_resize_bounds_invariant_witness :
    minDim envW ≤ envW.originalPdfWidth ∧
    minDim envW ≤ authoringHeight envW ∧
    ∀ r ∈ applyOps envW [rC] [EditOp.drag dsC 900 900],
      InsidePage envW r ∧ MeetsMin envW r := by
  have h1 : minDim envW ≤ envW.originalPdfWidth := by
    norm_num [minDim, displayToStored, envW]
  have h2 : minDim envW ≤ authoringHeight envW := by
    norm_num [minDim, displayToStored, authoringHeight, envW]
  have h3 : ∀ r ∈ [rC], InsidePage envW r ∧ MeetsMin envW r := by
    intro r hr
    rw [List.mem_singleton] at hr
    subst hr
    constructor
    · refine ⟨?_, ?_, ?_, ?_⟩ <;>
        norm_num [rC, envW, authoringHeight, InsidePage]
    · constructor <;> norm_num [rC, envW, minDim, displayToStored]
  exact ⟨h1, h2, drag_resize_bounds_invariant envW h1 h2 [rC] h3
    [EditOp.drag dsC 900 900]⟩

def envCE : CanvasEnv :=
  { pdfWidth := 1588, pdfHeight := 1000, originalPdfWidth := 794,
    snapEnabled := false }

def rCE : Region :=
  { id := "a", x := 100, y := 100, width := 100, height := 100,
    page_number := 1, order_index := 0 }

def rhCE : ResizeState :=
  { handle := .e, regionId := "a", startX := 0, startY := 0,
    originalRegion := rCE }

/-- C1 counterexample: with display width 1588 (twice the authoring
width) a single resize of a region that starts inside the page and
has both dimensions at least 20 authoring units produces a region of
width 10 authoring units, violating the claimed floor of 20 authoring
units: the code clamps to 20 display pixels, which is 10 authoring
units at this display width. -/
theorem resize_min_floor_break :
    (∀ r ∈ [rCE], InsidePage envCE r ∧ 20 ≤ r.width ∧ 20 ≤ r.height) ∧
    (0 : ℚ) < envCE.pdfWidth ∧
    ∃ r ∈ applyOps envCE [rCE] [EditOp.resize rhCE (-180) 0],
      r.width < 20 := by
  refine ⟨?_, by norm_num [envCE], ?_⟩
  · intro r hr
    rw [List.mem_singleton] at hr
    subst hr
    refine ⟨⟨?_, ?_, ?_, ?_⟩, ?_, ?_⟩ <;>
      norm_num [rCE, envCE, authoringHeight, InsidePage]
  · show ∃ r ∈ handleResize envCE [rCE] rhCE (-180) 0, r.width < 20
    norm_num [handleResize, resizeResult, getSnapTargets, applySnap, envCE,
      rCE, rhCE, minDim, authoringHeight, displayToStored, storedToDisplay,
      resizeDelta, SNAP_THRESHOLD]

/-! Helper lemmas for the save reconciliation. -/

/-- Row value after all sequential updates, assuming no two updates
share an id: the unique update with a matching id, if any, wins. -/
def lookupUpdate (updates : List Region) (e : Region) : Region :=
  match updates.find? (fun u => u.id = e.id) with
  | some c => updateRow e c
  | none => e

lemma lookupUpdate_id (updates : List Region) (e : Region) :
    (lookupUpdate updates e).id = e.id := by
  unfold lookupUpdate
  split <;> rfl

lemma find?_id_eq_none {us : List Region} {x : String}
    (h : x ∉ us.map (·.id)) : us.find? (fun u => u.id = x) = none := by
  rw [List.find?_eq_none]
  intro c hc hcx
  exact h (List.mem_map.mpr ⟨c, hc, by simpa using hcx⟩)

lemma find?_id_self {l : List Region} (h : (l.map (·.id)).Nodup)
    {c : Region} (hc : c ∈ l) : l.find? (fun u => u.id = c.id) = some c := by
  induction l with
  | nil => cases hc
  | cons a t ih =>
    rw [List.map_cons, List.nodup_cons] at h
    rcases List.mem_cons.mp hc with rfl | hct
    · exact List.find?_cons_of_pos _ (by simp)
    · have hfa : decide (a.id = c.id) = false := by
        simp only [decide_eq_false_iff_not]
        intro hac
        apply h.1
        rw [hac]
        exact List.mem_map.mpr ⟨c, hct, rfl⟩
      rw [List.find?_cons]
      simp only [hfa]
      exact ih h.2 hct

lemma applyUpdates_eq_map : ∀ (updates rows : List Region),
    (updates.map (·.id)).Nodup →
    applyUpdates rows updates = rows.map (lookupUpdate updates)
  | [], rows, _ => by
    have h1 : rows.map (lookupUpdate []) = rows.map id :=
      List.map_congr_left fun e _ => rfl
    show rows = rows.map (lookupUpdate [])
    rw [h1, List.map_id]
  | c :: us, rows, hnd => by
    have hc : c.id ∉ us.map (·.id) := by
      rw [List.map_cons, List.nodup_cons] at hnd
      exact hnd.1
    have hus : (us.map (·.id)).Nodup := by
      rw [List.map_cons, List.nodup_cons] at hnd
      exact hnd.2
    have hstep : applyUpdates rows (c :: us) =
        applyUpdates
          (rows.map (fun e => if e.id = c.id then updateRow e c else e))
          us := rfl
    rw [hstep, applyUpdates_eq_map us _ hus, List.map_map]
    apply List.map_congr_left
    intro e _
    show lookupUpdate us (if e.id = c.id then updateRow e c else e) =
      lookupUpdate (c :: us) e
    by_cases he : e.id = c.id
    · have h1 : us.find? (fun u => u.id = (updateRow e c).id) = none := by
        apply find?_id_eq_none
        show e.id ∉ us.map (·.id)
        rw [he]
        exact hc
      have h2 : (c :: us).find? (fun u => u.id = e.id) = some c :=
        List.find?_cons_of_pos _ (by simp [he])
      rw [if_pos he]
      simp only [lookupUpdate, h1, h2]
    · have h2 : (c :: us).find? (fun u => u.id = e.id) =
          us.find? (fun u => u.id = e.id) :=
        List.find?_cons_of_neg _
          (by simp only [decide_eq_true_eq]; exact fun hc2 => he hc2.symm)
      rw [if_neg he]
      simp only [lookupUpdate, h2]

lemma mem_currentRegionIds {current : List Region} {x : String} :
    x ∈ currentRegionIds current ↔
      ∃ c, c ∈ current ∧ isTemp c.id = false ∧ c.id = x := by
  simp [currentRegionIds, List.mem_map, List.mem_filter,
    Bool.not_eq_true', and_assoc]

lemma existingHas_iff {existing : List Region} {x : String} :
    existingHas existing x = true ↔ ∃ e, e ∈ existing ∧ e.id = x := by
  simp [existingHas, List.any_eq_true]

lemma mem_deletedIds {current existing : List Region} {x : String} :
    x ∈ deletedIds current existing ↔
      ∃ e, e ∈ existing ∧ x ∉ currentRegionIds current ∧ e.id = x := by
  constructor
  · intro hx
    obtain ⟨e, he, hex⟩ := List.mem_map.mp hx
    obtain ⟨hmem, hkeep⟩ := List.mem_filter.mp he
    refine ⟨e, hmem, ?_, hex⟩
    intro hcon
    rw [← hex] at hcon
    have hkeep2 : e.id ∉ currentRegionIds current := by
      simpa [List.contains, List.elem_eq_mem] using hkeep
    exact hkeep2 hcon
  · rintro ⟨e, hmem, hnot, hex⟩
    apply List.mem_map.mpr
    refine ⟨e, List.mem_filter.mpr ⟨hmem, ?_⟩, hex⟩
    rw [← hex] at hnot
    simpa [List.contains, List.elem_eq_mem] using hnot

lemma contains_eq_true_iff {l : List String} {x : String} :
    l.contains x = true ↔ x ∈ l := by
  simp [List.contains, List.elem_eq_mem]

lemma contains_eq_false_iff {l : List String} {x : String} :
    l.contains x = false ↔ x ∉ l := by
  simp [List.contains, List.elem_eq_mem]

lemma mem_regionsToUpdate_of {current existing : List Region} {c : Region}
    (hc : c ∈ current) (htemp : isTemp c.id = false)
    (hhas : existingHas existing c.id = true) :
    c ∈ regionsToUpdate current existing := by
  apply List.mem_filter.mpr
  exact ⟨hc, by simp [htemp, hhas]⟩

lemma of_mem_regionsToUpdate {current existing : List Region} {c : Region}
    (hc : c ∈ regionsToUpdate current existing) :
    c ∈ current ∧ isTemp c.id = false ∧ existingHas existing c.id = true := by
  obtain ⟨hmem, hcond⟩ := List.mem_filter.mp hc
  rw [Bool.and_eq_true, Bool.not_eq_true'] at hcond
  exact ⟨hmem, hcond.1, hcond.2⟩

lemma kept_orders_perm (current existing : List Region)
    (hNodC : (current.map (·.id)).Nodup)
    (hNodE : (existing.map (·.id)).Nodup) :
    List.Perm
      (((applyUpdates existing (regionsToUpdate current existing)).filter
          (fun e => !(deletedIds current existing).contains e.id)).map
        (·.order_index))
      ((regionsToUpdate current existing).map (·.order_index)) := by
  have hNodU : ((regionsToUpdate current existing).map (·.id)).Nodup :=
    hNodC.sublist (List.Sublist.map _ (List.filter_sublist current))
  rw [applyUpdates_eq_map _ _ hNodU, List.filter_map, List.map_map]
  have hfc : List.filter
      ((fun e => !(deletedIds current existing).contains e.id) ∘
        lookupUpdate (regionsToUpdate current existing)) existing =
      List.filter (fun e => (currentRegionIds current).contains e.id)
        existing := by
    apply List.filter_congr
    intro e he
    show (!(deletedIds current existing).contains
        (lookupUpdate (regionsToUpdate current existing) e).id) =
      (currentRegionIds current).contains e.id
    rw [lookupUpdate_id]
    by_cases hcur : e.id ∈ currentRegionIds current
    · have h2 : e.id ∉ deletedIds current existing := by
        rw [mem_deletedIds]
        rintro ⟨e2, _, hnot, _⟩
        exact hnot hcur
      rw [contains_eq_true_iff.mpr hcur, contains_eq_false_iff.mpr h2]
      rfl
    · have h2 : e.id ∈ deletedIds current existing :=
        mem_deletedIds.mpr ⟨e, he, hcur, rfl⟩
      rw [contains_eq_false_iff.mpr hcur, contains_eq_true_iff.mpr h2]
      rfl
  rw [hfc]
  have hNodE2 : ((existing.filter
      (fun e => (currentRegionIds current).contains e.id)).map (·.id)).Nodup :=
    hNodE.sublist (List.Sublist.map _ (List.filter_sublist existing))
  have hkept : (existing.filter
        (fun e => (currentRegionIds current).contains e.id)).map
      ((fun r => r.order_index) ∘
        lookupUpdate (regionsToUpdate current existing)) =
      ((existing.filter
        (fun e => (currentRegionIds current).contains e.id)).map (·.id)).map
        (fun x => (((regionsToUpdate current existing).find?
          (fun u => u.id = x)).map (·.order_index)).getD 0) := by
    rw [List.map_map]
    apply List.map_congr_left
    intro e he
    obtain ⟨hmem, hcont⟩ := List.mem_filter.mp he
    have hcur : e.id ∈ currentRegionIds current := contains_eq_true_iff.mp hcont
    obtain ⟨c, hcmem, htemp, hcid⟩ := mem_currentRegionIds.mp hcur
    have hcup : c ∈ regionsToUpdate current existing :=
      mem_regionsToUpdate_of hcmem htemp
        (existingHas_iff.mpr ⟨e, hmem, hcid.symm⟩)
    have hsome : ((regionsToUpdate current existing).find?
        (fun u => u.id = e.id)).isSome := by
      rw [List.find?_isSome]
      exact ⟨c, hcup, by simp [hcid]⟩
    obtain ⟨c2, hc2⟩ := Option.isSome_iff_exists.mp hsome
    show (lookupUpdate (regionsToUpdate current existing) e).order_index = _
    simp only [lookupUpdate, Function.comp_apply, updateRow, hc2,
      Option.map_some', Option.getD_some]
  have hupd : (regionsToUpdate current existing).map (·.order_index) =
      ((regionsToUpdate current existing).map (·.id)).map
        (fun x => (((regionsToUpdate current existing).find?
          (fun u => u.id = x)).map (·.order_index)).getD 0) := by
    rw [List.map_map]
    apply List.map_congr_left
    intro c hcmem
    show c.order_index = _
    simp only [Function.comp_apply, find?_id_self hNodU hcmem,
      Option.map_some', Option.getD_some]
  have hperm_ids : List.Perm
      ((existing.filter
        (fun e => (currentRegionIds current).contains e.id)).map (·.id))
      ((regionsToUpdate current existing).map (·.id)) := by
    rw [List.perm_ext_iff_of_nodup hNodE2 hNodU]
    intro x
    constructor
    · intro hx
      obtain ⟨e, he, hex⟩ := List.mem_map.mp hx
      obtain ⟨hmem, hcont⟩ := List.mem_filter.mp he
      have hcur : e.id ∈ currentRegionIds current :=
        contains_eq_true_iff.mp hcont
      obtain ⟨c, hcmem, htemp, hcid⟩ := mem_currentRegionIds.mp hcur
      have hcup : c ∈ regionsToUpdate current existing :=
        mem_regionsToUpdate_of hcmem htemp
          (existingHas_iff.mpr ⟨e, hmem, hcid.symm⟩)
      exact List.mem_map.mpr ⟨c, hcup, by rw [hcid, hex]⟩
    · intro hx
      obtain ⟨c, hcup, hcx⟩ := List.mem_map.mp hx
      obtain ⟨hcmem, htemp, hhas⟩ := of_mem_regionsToUpdate hcup
      obtain ⟨e, hemem, heid⟩ := existingHas_iff.mp hhas
      have hecur : e.id ∈ currentRegionIds current :=
        mem_currentRegionIds.mpr ⟨c, hcmem, htemp, heid.symm⟩
      apply List.mem_map.mpr
      refine ⟨e, List.mem_filter.mpr
        ⟨hemem, contains_eq_true_iff.mpr hecur⟩, ?_⟩
      rw [heid, hcx]
  rw [hkept, hupd]
  exact hperm_ids.map _

lemma handleSaveRegions_eq (current existing : List Region)
    (freshIds : List String) (hne : current ≠ []) :
    handleSaveRegions current existing freshIds =
      (applyUpdates existing (regionsToUpdate current existing)).filter
          (fun e => !(deletedIds current existing).contains e.id) ++
        (insertedRows current existing freshIds).filter
          (fun e => !(deletedIds current existing).contains e.id) := by
  rw [handleSaveRegions, if_neg (by simp [List.isEmpty_iff, hne]),
    List.filter_append]

lemma mem_insertRowsAux (u : Int) (fresh : List String) :
    ∀ (l : List Region) (i : Nat) (r : Region),
      r ∈ insertRowsAux u fresh i l →
      ∃ j : Nat, i ≤ j ∧ j < i + l.length ∧ r.id = fresh.getD j ""
  | [], _, r => by
    intro h
    cases h
  | a :: rs, i, r => by
    intro h
    rw [insertRowsAux] at h
    rcases List.mem_cons.mp h with rfl | htail
    · exact ⟨i, le_refl i, by simp, rfl⟩
    · obtain ⟨j, hij, hjlt, hid⟩ := mem_insertRowsAux u fresh rs (i + 1) r htail
      refine ⟨j, by omega, ?_, hid⟩
      rw [List.length_cons]
      omega

lemma insertRowsAux_orders (u : Int) (fresh : List String) :
    ∀ (l : List Region) (i : Nat),
      (insertRowsAux u fresh i l).map (·.order_index) =
        (List.range l.length).map
          (fun (j : Nat) => u + (i : Int) + (j : Int))
  | [], i => by simp [insertRowsAux]
  | a :: rs, i => by
    rw [insertRowsAux, List.map_cons, insertRowsAux_orders u fresh rs (i + 1),
      List.length_cons, List.range_succ_eq_map, List.map_cons, List.map_map]
    congr 1
    · show u + (i : Int) = u + (i : Int) + ((0 : Nat) : Int)
      simp
    · apply List.map_congr_left
      intro j _
      show u + ((i + 1 : Nat) : Int) + (j : Int) =
        u + (i : Int) + ((j + 1 : Nat) : Int)
      push_cast
      ring

lemma insertedRows_id_mem {current existing : List Region}
    {freshIds : List String}
    (hlen : (regionsToInsert current existing).length ≤ freshIds.length)
    {row : Region} (hrow : row ∈ insertedRows current existing freshIds) :
    row.id ∈ freshIds := by
  obtain ⟨j, _, hjl, hid⟩ := mem_insertRowsAux _ _ _ 0 row hrow
  rw [Nat.zero_add] at hjl
  have hjf : j < freshIds.length := lt_of_lt_of_le hjl hlen
  rw [hid, List.getD_eq_getElem?_getD, List.getElem?_eq_getElem hjf,
    Option.getD_some]
  exact List.getElem_mem _

lemma insertedRows_keep (current existing : List Region)
    (freshIds : List String)
    (hfresh : ∀ fid ∈ freshIds, existingHas existing fid = false)
    (hlen : (regionsToInsert current existing).length ≤ freshIds.length) :
    (insertedRows current existing freshIds).filter
        (fun e => !(deletedIds current existing).contains e.id) =
      insertedRows current existing freshIds := by
  apply List.filter_eq_self.mpr
  intro r hr
  have hidmem : r.id ∈ freshIds := insertedRows_id_mem hlen hr
  rw [Bool.not_eq_true', contains_eq_false_iff]
  intro hdel
  obtain ⟨e, hemem, _, heid⟩ := mem_deletedIds.mp hdel
  have : existingHas existing r.id = true :=
    existingHas_iff.mpr ⟨e, hemem, heid⟩
  rw [hfresh _ hidmem] at this
  cases this

/-- C3 amended: after a persisted save of a non-empty region list,
the persisted order_index values are a permutation of 0..n-1 provided
the in-memory order_index values of the kept (updated) regions are
themselves a permutation of 0..u-1 (for example when nothing was
deleted or reordered since load); in general the updated rows keep
their in-memory order_index values unchanged, so a deletion before
saving leaves gaps or duplicates. -/
theorem save_order_index_perm_of_compact (current existing : List Region)
    (freshIds : List String) (hne : current ≠ [])
    (hNodC : (current.map (·.id)).Nodup)
    (hNodE : (existing.map (·.id)).Nodup)
    (hfresh : ∀ fid ∈ freshIds, existingHas existing fid = false)
    (hlen : (regionsToInsert current existing).length ≤ freshIds.length)
    (hcompact : List.Perm
      ((regionsToUpdate current existing).map (·.order_index))
      ((List.range (regionsToUpdate current existing).length).map
        Int.ofNat)) :
    List.Perm
      ((handleSaveRegions current existing freshIds).map (·.order_index))
      ((List.range (handleSaveRegions current existing freshIds).length).map
        Int.ofNat) := by
  have heq := handleSaveRegions_eq current existing freshIds hne
  have hkeepins := insertedRows_keep current existing freshIds hfresh hlen
  have hkept := kept_orders_perm current existing hNodC hNodE
  have hins : (insertedRows current existing freshIds).map (·.order_index) =
      (List.range (regionsToInsert current existing).length).map
        (fun (j : Nat) => ((regionsToUpdate current existing).length : Int) +
          (j : Int)) := by
    rw [show insertedRows current existing freshIds = insertRowsAux
        ((regionsToUpdate current existing).length : Int) freshIds 0
        (regionsToInsert current existing) from rfl,
      insertRowsAux_orders]
    apply List.map_congr_left
    intro j _
    push_cast
    ring
  have hkeptlen : ((applyUpdates existing
      (regionsToUpdate current existing)).filter
        (fun e => !(deletedIds current existing).contains e.id)).length =
      (regionsToUpdate current existing).length := by
    have h1 := hkept.length_eq
    rw [List.length_map, List.length_map] at h1
    exact h1
  have hinslen : (insertedRows current existing freshIds).length =
      (regionsToInsert current existing).length := by
    have h1 := congrArg List.length hins
    rw [List.length_map, List.length_map, List.length_range] at h1
    exact h1
  have hreslen : (handleSaveRegions current existing freshIds).length =
      (regionsToUpdate current existing).length +
        (regionsToInsert current existing).length := by
    rw [heq, hkeepins, List.length_append, hkeptlen, hinslen]
  rw [hreslen, heq, hkeepins, List.map_append, hins]
  have hsplit : (List.range ((regionsToUpdate current existing).length +
        (regionsToInsert current existing).length)).map Int.ofNat =
      (List.range (regionsToUpdate current existing).length).map Int.ofNat ++
        (List.range (regionsToInsert current existing).length).map
          (fun (j : Nat) =>
            ((regionsToUpdate current existing).length : Int) +
              (j : Int)) := by
    rw [List.range_add, List.map_append, List.map_map]
    congr 1
  rw [hsplit]
  exact (hkept.trans hcompact).append (List.Perm.refl _)

def exA0 : Region :=
  { id := "pa", x := 0, y := 0, width := 50, height := 50,
    page_number := 1, order_index := 0 }

def exB1 : Region :=
  { id := "pb", x := 60, y := 0, width := 50, height := 50,
    page_number := 1, order_index := 1 }

/-- C3 counterexample: two persisted regions with order indexes 0 and
1; the first is deleted in memory and the remaining list is saved.
The save keeps the in-memory order_index 1 for the surviving region,
so the persisted set of size 1 carries order index 1, which is not a
permutation of 0..0. -/
theorem save_order_index_gap :
    (handleSaveRegions [exB1] [exA0, exB1] []).map (·.order_index) = [1] ∧
    ∃ o ∈ (handleSaveRegions [exB1] [exA0, exB1] []).map (·.order_index),
      ¬ o < ((handleSaveRegions [exB1] [exA0, exB1] []).length : Int) := by
  decide

def exN : Region :=
  { id := "n1", x := 120, y := 0, width := 30, height := 30,
    page_number := 1, order_index := 1 }

/-- Witness for save_order_index_perm_of_compact at concrete inputs. -/
theorem save_order_index_perm_witness :
    List.Perm
      ((handleSaveRegions [exA0, exN] [exA0] ["f1"]).map (·.order_index))
      ((List.range
        (handleSaveRegions [exA0, exN] [exA0] ["f1"]).length).map
        Int.ofNat) := by
  apply save_order_index_perm_of_compact
  · simp
  · decide
  · decide
  · decide
  · decide
  · have h1 : (regionsToUpdate [exA0, exN] [exA0]).map (·.order_index) =
        [(0 : Int)] := by decide
    have h2 : (regionsToUpdate [exA0, exN] [exA0]).length = 1 := by decide
    rw [h1, h2]
    exact List.Perm.refl _

lemma insertRowsAux_exists (u : Int) (fresh : List String) :
    ∀ (l : List Region) (i : Nat) (c : Region), c ∈ l →
      ∃ row ∈ insertRowsAux u fresh i l,
        row.x = c.x ∧ row.y = c.y ∧ row.width = c.width ∧
          row.height = c.height
  | [], _, c => fun h => absurd h (List.not_mem_nil c)
  | a :: rs, i, c => fun h => by
    rcases List.mem_cons.mp h with rfl | htail
    · exact ⟨_, List.mem_cons_self _ _, rfl, rfl, rfl, rfl⟩
    · obtain ⟨row, hrmem, hf⟩ :=
        insertRowsAux_exists u fresh rs (i + 1) c htail
      exact ⟨row, List.mem_cons_of_mem _ hrmem, hf⟩

/-- C4 amended: the save reconciliation is a full diff against the
previously loaded persisted set only for a non-empty current list:
every current region with a persisted id is updated in place, every
current draft is inserted, and every previously persisted id absent
from the current list is deleted; when the current region list is
empty the save is refused and the persisted set is left entirely
unchanged (nothing is deleted). -/
theorem save_reconciliation_diff :
    (∀ (existing : List Region) (freshIds : List String),
      handleSaveRegions [] existing freshIds = existing) ∧
    (∀ (current existing : List Region) (freshIds : List String),
      current ≠ [] → (current.map (·.id)).Nodup →
      (∀ fid ∈ freshIds, existingHas existing fid = false) →
      (regionsToInsert current existing).length ≤ freshIds.length →
      (∀ c ∈ current, isTemp c.id = false →
          existingHas existing c.id = true →
          (∃ row ∈ handleSaveRegions current existing freshIds,
            row.id = c.id) ∧
          ∀ row ∈ handleSaveRegions current existing freshIds,
            row.id = c.id → row.x = c.x ∧ row.y = c.y ∧
              row.width = c.width ∧ row.height = c.height ∧
              row.order_index = c.order_index) ∧
      (∀ c ∈ current, isTemp c.id = true →
          ∃ row ∈ handleSaveRegions current existing freshIds,
            row.x = c.x ∧ row.y = c.y ∧ row.width = c.width ∧
              row.height = c.height) ∧
      (∀ e ∈ existing, e.id ∉ currentRegionIds current →
          ∀ row ∈ handleSaveRegions current existing freshIds,
            row.id ≠ e.id)) := by
  constructor
  · intro existing freshIds
    rfl
  · intro current existing freshIds hne hNodC hfresh hlen
    have hNodU : ((regionsToUpdate current existing).map (·.id)).Nodup :=
      hNodC.sublist (List.Sublist.map _ (List.filter_sublist current))
    have heq := handleSaveRegions_eq current existing freshIds hne
    have hkeepins := insertedRows_keep current existing freshIds hfresh hlen
    have happ :=
      applyUpdates_eq_map (regionsToUpdate current existing) existing hNodU
    refine ⟨?_, ?_, ?_⟩
    · intro c hc htemp hhas
      obtain ⟨e, hemem, heid⟩ := existingHas_iff.mp hhas
      have hcur : c.id ∈ currentRegionIds current :=
        mem_currentRegionIds.mpr ⟨c, hc, htemp, rfl⟩
      have hnotdel : c.id ∉ deletedIds current existing := by
        rw [mem_deletedIds]
        rintro ⟨e2, _, hnot, _⟩
        exact hnot hcur
      constructor
      · refine ⟨lookupUpdate (regionsToUpdate current existing) e, ?_, ?_⟩
        · rw [heq]
          apply List.mem_append_left
          rw [happ]
          apply List.mem_filter.mpr
          refine ⟨List.mem_map.mpr ⟨e, hemem, rfl⟩, ?_⟩
          rw [Bool.not_eq_true', contains_eq_false_iff, lookupUpdate_id,
            heid]
          exact hnotdel
        · rw [lookupUpdate_id, heid]
      · intro row hrow hrowid
        rw [heq, hkeepins] at hrow
        rcases List.mem_append.mp hrow with hkeptmem | hinsmem
        · rw [happ] at hkeptmem
          obtain ⟨hmm, _⟩ := List.mem_filter.mp hkeptmem
          obtain ⟨e2, he2mem, he2eq⟩ := List.mem_map.mp hmm
          have hrowid2 : e2.id = c.id := by
            rw [← he2eq, lookupUpdate_id] at hrowid
            exact hrowid
          have hcup : c ∈ regionsToUpdate current existing :=
            mem_regionsToUpdate_of hc htemp hhas
          have hfind : (regionsToUpdate current existing).find?
              (fun u => u.id = e2.id) = some c := by
            rw [hrowid2]
            exact find?_id_self hNodU hcup
          rw [← he2eq]
          simp [lookupUpdate, hfind, updateRow]
        · exfalso
          have hmemf : row.id ∈ freshIds := insertedRows_id_mem hlen hinsmem
          have hfid := hfresh _ hmemf
          rw [hrowid, hhas] at hfid
          cases hfid
    · intro c hc htemp
      have hcin : c ∈ regionsToInsert current existing :=
        List.mem_filter.mpr ⟨hc, by simp [htemp]⟩
      obtain ⟨row, hrmem, hf⟩ := insertRowsAux_exists
        ((regionsToUpdate current existing).length : Int) freshIds
        (regionsToInsert current existing) 0 c hcin
      refine ⟨row, ?_, hf⟩
      rw [heq, hkeepins]
      exact List.mem_append_right _ hrmem
    · intro e hemem hnot row hrow hrowid
      rw [heq, hkeepins] at hrow
      rcases List.mem_append.mp hrow with hkeptmem | hinsmem
      · rw [happ] at hkeptmem
        obtain ⟨hmm, hkb⟩ := List.mem_filter.mp hkeptmem
        obtain ⟨e2, he2mem, he2eq⟩ := List.mem_map.mp hmm
        have he2id : e2.id = e.id := by
          rw [← he2eq, lookupUpdate_id] at hrowid
          exact hrowid
        have hdel : e.id ∈ deletedIds current existing :=
          mem_deletedIds.mpr ⟨e2, he2mem, hnot, he2id⟩
        rw [Bool.not_eq_true', contains_eq_false_iff] at hkb
        exact (hrowid ▸ hkb) hdel
      · have hmemf : row.id ∈ freshIds := insertedRows_id_mem hlen hinsmem
        have hfid := hfresh _ hmemf
        have hhas2 : existingHas existing row.id = true :=
          existingHas_iff.mpr ⟨e, hemem, hrowid.symm⟩
        rw [hfid] at hhas2
        cases hhas2

/-- C4 counterexample: saving an empty region list after deleting the
last region is refused by the guard, so the previously persisted row
keeps its id instead of being deleted as the claim requires. -/
theorem save_empty_noop :
    handleSaveRegions [] [exA0] [] = [exA0] ∧
    ∃ row ∈ handleSaveRegions [] [exA0] [], row.id = exA0.id := by
  refine ⟨rfl, exA0, ?_, rfl⟩
  rw [show handleSaveRegions [] [exA0] [] = [exA0] from rfl]
  exact List.mem_singleton_self _

/-- Witness for save_reconciliation_diff at concrete inputs. -/
theorem save_reconciliation_diff_witness :
    handleSaveRegions [] [exA0] ["f9"] = [exA0] ∧
    ∃ row ∈ handleSaveRegions [exA0, exN] [exA0, exB1] ["f1"],
      row.id = exA0.id := by
  constructor
  · exact save_reconciliation_diff.1 [exA0] ["f9"]
  · have h := (save_reconciliation_diff.2 [exA0, exN] [exA0, exB1] ["f1"]
      (by simp) (by decide) (by decide) (by decide)).1 exA0 (by simp)
      (by decide) (by decide)
    exact h.1

end PdfCarousel
